import Mathlib

/-
Shallow embedding of builtin/add--helper.c: the change-aggregation engine
behind the status mode of the interactive-add helper.  The hashmap of
struct file_stat keyed by path becomes a list of records whose names are
kept unique by the upsert discipline of collect_changes_cb; the two diff
passes become folds over event lists; print_modified becomes a pure
function from the collected store to the bytes written on stdout.
Counts are uintmax_t in the C code and are embedded as Nat; the claims
that depend on the 64-bit width carry an explicit bound as a hypothesis.
-/

namespace AddHelper

/-- enum collection_phase: which diff pass is currently writing. -/
inductive CollectionPhase
  | WORKTREE
  | INDEX
deriving DecidableEq, Repr

/-- a pair of line counts, the added and deleted fields of file_stat. -/
structure Delta where
  added : Nat
  deleted : Nat
deriving DecidableEq, Repr

/-- struct file_stat: one record per path, holding one delta per phase.
FLEX_ALLOC_STR zero-fills the record, so a fresh entry has both deltas
zero. -/
structure FileStat where
  name : String
  index : Delta
  worktree : Delta
deriving DecidableEq, Repr

/-- the hashmap file_map, embedded as a list of records in insertion
order; hash_cmp compares entries by strcmp on their names, so lookup is
by name equality. -/
abbrev FileMap := List FileStat

/-- hashmap_get_from_hash: the first entry whose name equals the key. -/
def findEntry (m : FileMap) (name : String) : Option FileStat :=
  m.find? (fun e => e.name == name)

/-- the phase-directed store into the record performed at the end of
collect_changes_cb: only the delta of the current phase is written. -/
def setPhase (phase : CollectionPhase) (added deleted : Nat) (e : FileStat) : FileStat :=
  match phase with
  | .WORKTREE => { e with worktree := ⟨added, deleted⟩ }
  | .INDEX => { e with index := ⟨added, deleted⟩ }

/-- overwriting of the first entry matching the key, as mutating the
entry returned by hashmap_get_from_hash does in the C code. -/
def replaceEntry (phase : CollectionPhase) (added deleted : Nat) (name : String) :
    FileMap → FileMap
  | [] => []
  | e :: rest =>
    if e.name == name then setPhase phase added deleted e :: rest
    else e :: replaceEntry phase added deleted name rest

/-- one iteration of the second loop of collect_changes_cb: look the
path up, allocate a zero-filled record when absent, then write the
current phase of the (possibly fresh) record. -/
def upsert (m : FileMap) (phase : CollectionPhase) (name : String)
    (added deleted : Nat) : FileMap :=
  match findEntry m name with
  | some _ => replaceEntry phase added deleted name m
  | none =>
      m ++ [setPhase phase added deleted { name := name, index := ⟨0, 0⟩, worktree := ⟨0, 0⟩ }]

/-- one diffstat entry delivered by the external diff engine: a path
with its added and deleted line counts. -/
structure StatEvent where
  name : String
  added : Nat
  deleted : Nat
deriving DecidableEq, Repr

/-- collect_changes_cb: an empty queue returns at once; otherwise every
diffstat entry is upserted into the store under the current phase. -/
def collect_changes_cb (phase : CollectionPhase) (q : List StatEvent)
    (m : FileMap) : FileMap :=
  if q.isEmpty then m
  else q.foldl (fun acc ev => upsert acc phase ev.name ev.added ev.deleted) m

/-- list_modified_into_status: the worktree pass runs first, then the
index pass, both writing into the same store that starts empty. -/
def list_modified_into_status (wt idx : List StatEvent) : FileMap :=
  collect_changes_cb .INDEX idx (collect_changes_cb .WORKTREE wt [])

/-- one decimal digit as a character. -/
def digitChar (d : Nat) : Char := Char.ofNat (48 + d)

/-- fuel-indexed decimal rendering; the fuel only has to dominate the
number of digits. -/
def uintReprAux : Nat → Nat → List Char
  | 0, _ => []
  | fuel + 1, n =>
    if n = 0 then []
    else uintReprAux fuel (n / 10) ++ [digitChar (n % 10)]

/-- the decimal rendering of an unsigned count, as printf does for the
conversions ju and d used in print_modified. -/
def uintRepr (n : Nat) : String :=
  if n = 0 then "0" else String.mk (uintReprAux n n)

/-- right-justification of a string in a field of the given width, as a
printf width specifier pads with spaces on the left; longer strings are
left alone.  Every padded string here is ASCII, so characters and bytes
agree. -/
def padTo (w : Nat) (s : String) : String :=
  String.mk (List.replicate (w - s.length) ' ') ++ s

/-- the row format of print_modified: staged column and unstaged column
each right-justified to twelve places, then the path. -/
def modified_fmt (staged unstaged path : String) : String :=
  padTo 12 staged ++ " " ++ padTo 12 unstaged ++ " " ++ path

/-- snprintf into a 50-byte buffer: at most 49 characters are kept, the
last byte being reserved for the terminating NUL. -/
def snprintf50 (s : String) : String := String.mk (s.data.take 49)

/-- the unstaged cell of a row: the worktree delta when any count is
nonzero, the sentinel nothing otherwise. -/
def worktreeCell (d : Delta) : String :=
  if d.added != 0 || d.deleted != 0 then
    snprintf50 ("+" ++ uintRepr d.added ++ "/-" ++ uintRepr d.deleted)
  else snprintf50 "nothing"

/-- the staged cell of a row: the index delta when any count is nonzero,
the sentinel unchanged otherwise. -/
def indexCell (d : Delta) : String :=
  if d.added != 0 || d.deleted != 0 then
    snprintf50 ("+" ++ uintRepr d.added ++ "/-" ++ uintRepr d.deleted)
  else snprintf50 "unchanged"

/-- one printed row: the 1-based position in a field of two places, then
the formatted columns, then the newline. -/
def rowLine (i : Nat) (f : FileStat) : String :=
  " " ++ padTo 2 (uintRepr (i + 1)) ++ ": " ++
    modified_fmt (indexCell f.index) (worktreeCell f.worktree) f.name ++ "\n"

/-- byte-wise lexicographic comparison of strcmp, at most: true when the
first list is less than or equal to the second.  String data is compared
by code point, which orders exactly as the UTF-8 bytes do. -/
def charListLe : List Char → List Char → Bool
  | [], _ => true
  | _ :: _, [] => false
  | a :: as, b :: bs =>
    if a.toNat < b.toNat then true
    else if b.toNat < a.toNat then false
    else charListLe as bs

/-- strict byte-wise lexicographic comparison: true when strcmp would
return a negative value. -/
def charListLt : List Char → List Char → Bool
  | _, [] => false
  | [], _ :: _ => true
  | a :: as, b :: bs =>
    if a.toNat < b.toNat then true
    else if b.toNat < a.toNat then false
    else charListLt as bs

/-- strcmp strictly below zero, lifted to strings. -/
def strLt (a b : String) : Bool := charListLt a.data b.data

/-- alphabetical_cmp as the ordering used by QSORT: ascending by strcmp
of the names. -/
def fileLe (a b : FileStat) : Prop := charListLe a.name.data b.name.data = true

instance : DecidableRel fileLe := fun _ _ => instDecidableEqBool _ _

/-- the sort performed by print_modified on the snapshot of the store.
QSORT is a comparison sort under alphabetical_cmp; since the keys are
pairwise distinct the sorted sequence is unique, and an insertion sort
denotes it faithfully. -/
def sortedFiles (m : FileMap) : List FileStat :=
  List.insertionSort fileLe m

/-- the printed rows of the table, numbered from the given index. -/
def renderRows : Nat → List FileStat → String
  | _, [] => ""
  | i, f :: rest => rowLine i f ++ renderRows (i + 1) rest

/-- HEADER_INDENT, six spaces. -/
def HEADER_INDENT : String := "      "

/-- the header row: indentation, then the column labels in the row
format, then the newline.  Color is decoration only and is embedded as
absent. -/
def headerLine : String :=
  HEADER_INDENT ++ modified_fmt "staged" "unstaged" "path" ++ "\n"

/-- the report produced by print_modified from a collected store: one
blank line when the store is empty, otherwise header, sorted rows and a
trailing blank line. -/
def render (m : FileMap) : String :=
  if m.length < 1 then "\n"
  else headerLine ++ renderRows 0 (sortedFiles m) ++ "\n"

/-- the printing loop with the store threaded through explicitly: the
loop only reads the records, so the store comes out as it went in. -/
def renderRowsSt : Nat → List FileStat → FileMap → String × FileMap
  | _, [], m => ("", m)
  | i, f :: rest, m =>
    let t := renderRowsSt (i + 1) rest m
    (rowLine i f ++ t.1, t.2)

/-- render with the store threaded through, exposing that rendering
leaves the records untouched. -/
def renderSt (m : FileMap) : String × FileMap :=
  if m.length < 1 then ("\n", m)
  else
    let t := renderRowsSt 0 (sortedFiles m) m
    (headerLine ++ t.1 ++ "\n", t.2)

/-- print_modified: a negative read_cache result abandons the whole
collection before anything is printed; otherwise both passes run and the
collected store is rendered. -/
def print_modified (readCacheResult : Int) (wt idx : List StatEvent) : String :=
  if readCacheResult < 0 then ""
  else render (list_modified_into_status wt idx)

/-- enum cmd_mode of cmd_add__helper. -/
inductive CmdMode
  | DEFAULT
  | STATUS
deriving DecidableEq, Repr

/-- cmd_add__helper, as the pair of the bytes written on stdout and the
exit status: status mode prints the report and returns 0; without a
recognized mode the usage text goes to stderr and the process exits 129
through usage_with_options. -/
def cmd_add__helper (mode : CmdMode) (readCacheResult : Int)
    (wt idx : List StatEvent) : String × Int :=
  match mode with
  | .STATUS => (print_modified readCacheResult wt idx, 0)
  | .DEFAULT => ("", 129)

/-- projection of the delta a given phase owns. -/
def getDelta (phase : CollectionPhase) (e : FileStat) : Delta :=
  match phase with
  | .WORKTREE => e.worktree
  | .INDEX => e.index

/-- the delta a phase observes for a path, with the zero delta standing
for an absent record, as the spec reads absence. -/
def lookupDelta (phase : CollectionPhase) (m : FileMap) (name : String) : Delta :=
  ((findEntry m name).map (getDelta phase)).getD ⟨0, 0⟩

/-- the multiset of keys of the store. -/
abbrev names (m : FileMap) : List String := m.map (fun f => f.name)

/-!  Facts about the byte-wise lexicographic order of strcmp. -/

lemma char_toNat_inj {a b : Char} (h : a.toNat = b.toNat) : a = b :=
  Char.ext (UInt32.ext h)

lemma charListLe_total : ∀ a b : List Char, charListLe a b = true ∨ charListLe b a = true
  | [], _ => Or.inl rfl
  | _ :: _, [] => Or.inr rfl
  | a :: as, b :: bs => by
    simp only [charListLe]
    rcases Nat.lt_trichotomy a.toNat b.toNat with h | h | h
    · left
      simp [h]
    · simpa [h] using charListLe_total as bs
    · right
      simp [h, Nat.lt_asymm h]

lemma charListLe_trans :
    ∀ a b c : List Char, charListLe a b = true → charListLe b c = true →
      charListLe a c = true
  | [], _, _, _, _ => rfl
  | _ :: _, [], _, h1, _ => by simp [charListLe] at h1
  | _ :: _, _ :: _, [], _, h2 => by simp [charListLe] at h2
  | a :: as, b :: bs, c :: cs, h1, h2 => by
    simp only [charListLe] at h1 h2 ⊢
    rcases Nat.lt_trichotomy a.toNat b.toNat with hab | hab | hab
    · rcases Nat.lt_trichotomy b.toNat c.toNat with hbc | hbc | hbc
      · simp [Nat.lt_trans hab hbc]
      · simp [hbc ▸ hab]
      · simp [hab, Nat.lt_asymm hab] at h1
        simp [hbc, Nat.lt_asymm hbc] at h2
    · rcases Nat.lt_trichotomy b.toNat c.toNat with hbc | hbc | hbc
      · simp [hab ▸ hbc]
      · have hac : a.toNat = c.toNat := hab.trans hbc
        simp [hab] at h1
        simp [hbc] at h2
        simpa [hac] using charListLe_trans as bs cs h1 h2
      · simp [hbc, Nat.lt_asymm hbc] at h2
    · simp [hab, Nat.lt_asymm hab] at h1

lemma charListLe_antisymm :
    ∀ a b : List Char, charListLe a b = true → charListLe b a = true → a = b
  | [], [], _, _ => rfl
  | [], _ :: _, _, h2 => by simp [charListLe] at h2
  | _ :: _, [], h1, _ => by simp [charListLe] at h1
  | a :: as, b :: bs, h1, h2 => by
    simp only [charListLe] at h1 h2
    rcases Nat.lt_trichotomy a.toNat b.toNat with h | h | h
    · simp [h, Nat.lt_asymm h] at h2
    · simp [h] at h1 h2
      exact congrArg₂ List.cons (char_toNat_inj h) (charListLe_antisymm as bs h1 h2)
    · simp [h, Nat.lt_asymm h] at h1

lemma charListLt_of_le_of_ne :
    ∀ a b : List Char, charListLe a b = true → a ≠ b → charListLt a b = true
  | [], [], _, hne => absurd rfl hne
  | [], _ :: _, _, _ => rfl
  | _ :: _, [], h1, _ => by simp [charListLe] at h1
  | a :: as, b :: bs, h1, hne => by
    simp only [charListLe] at h1
    simp only [charListLt]
    rcases Nat.lt_trichotomy a.toNat b.toNat with h | h | h
    · simp [h]
    · simp [h] at h1 ⊢
      have hab : a = b := char_toNat_inj h
      exact charListLt_of_le_of_ne as bs h1 (fun hrest => hne (by rw [hab, hrest]))
    · simp [h, Nat.lt_asymm h] at h1

instance : IsTotal FileStat fileLe :=
  ⟨fun a b => charListLe_total a.name.data b.name.data⟩

instance : IsTrans FileStat fileLe :=
  ⟨fun a b c => charListLe_trans a.name.data b.name.data c.name.data⟩

lemma fileLe_names_eq {a b : FileStat} (h1 : fileLe a b) (h2 : fileLe b a) :
    a.name = b.name :=
  String.ext (charListLe_antisymm _ _ h1 h2)

/-!  Facts about the store operations. -/

lemma setPhase_name (p : CollectionPhase) (a d : Nat) (e : FileStat) :
    (setPhase p a d e).name = e.name := by
  cases p <;> rfl

lemma getDelta_setPhase_same (p : CollectionPhase) (a d : Nat) (e : FileStat) :
    getDelta p (setPhase p a d e) = ⟨a, d⟩ := by
  cases p <;> rfl

lemma getDelta_setPhase_other {p p' : CollectionPhase} (h : p ≠ p') (a d : Nat)
    (e : FileStat) : getDelta p' (setPhase p a d e) = getDelta p' e := by
  cases p <;> cases p' <;> first | rfl | exact absurd rfl h

lemma replaceEntry_names (p : CollectionPhase) (a d : Nat) (n : String) :
    ∀ m : FileMap, names (replaceEntry p a d n m) = names m
  | [] => rfl
  | e :: rest => by
    by_cases h : e.name == n
    · simp [replaceEntry, h, names, setPhase_name]
    · simp only [replaceEntry, h, if_neg, Bool.false_eq_true, not_false_iff]
      simp [names] at replaceEntry_names p a d n rest ⊢
      exact replaceEntry_names p a d n rest

lemma findEntry_replaceEntry_self {n : String} (p : CollectionPhase) (a d : Nat) :
    ∀ {m : FileMap} {e : FileStat}, findEntry m n = some e →
      findEntry (replaceEntry p a d n m) n = some (setPhase p a d e)
  | [], _, h => by simp [findEntry] at h
  | f :: rest, e, h => by
    by_cases hf : f.name == n
    · have he : f = e := by
        simpa [findEntry, List.find?, hf] using h
      subst he
      simp [findEntry, List.find?, replaceEntry, hf, setPhase_name]
    · have h' : findEntry rest n = some e := by
        simpa [findEntry, List.find?, hf] using h
      simpa [findEntry, List.find?, replaceEntry, hf]
        using findEntry_replaceEntry_self p a d h'

lemma findEntry_replaceEntry_ne {n n' : String} (hne : n' ≠ n)
    (p : CollectionPhase) (a d : Nat) :
    ∀ m : FileMap, findEntry (replaceEntry p a d n m) n' = findEntry m n'
  | [] => rfl
  | f :: rest => by
    by_cases hf : f.name == n
    · have hfn : f.name = n := by simpa using hf
      have h1 : ((setPhase p a d f).name == n') = false := by
        simp [setPhase_name, hfn]
        exact fun h => hne h.symm
      have h2 : (f.name == n') = false := by
        simp [hfn]
        exact fun h => hne h.symm
      simp [replaceEntry, hf, findEntry, List.find?, h1, h2]
    · by_cases hf' : f.name == n'
      · simp [replaceEntry, hf, findEntry, List.find?, hf']
      · simpa [replaceEntry, hf, findEntry, List.find?, hf']
          using findEntry_replaceEntry_ne hne p a d rest

lemma findEntry_append (m m' : FileMap) (n : String) :
    findEntry (m ++ m') n = (findEntry m n).or (findEntry m' n) := by
  simp [findEntry, List.find?_append]

lemma findEntry_upsert_self (m : FileMap) (p : CollectionPhase) (n : String)
    (a d : Nat) :
    findEntry (upsert m p n a d) n =
      some (setPhase p a d ((findEntry m n).getD ⟨n, ⟨0, 0⟩, ⟨0, 0⟩⟩)) := by
  rcases hfind : findEntry m n with _ | e
  · simp only [upsert, hfind, findEntry_append, Option.getD]
    simp [findEntry, List.find?, setPhase_name]
  · simp only [upsert, hfind, Option.getD]
    exact findEntry_replaceEntry_self p a d hfind

lemma lookupDelta_upsert_self (m : FileMap) (p : CollectionPhase) (n : String)
    (a d : Nat) : lookupDelta p (upsert m p n a d) n = ⟨a, d⟩ := by
  simp [lookupDelta, findEntry_upsert_self, getDelta_setPhase_same]

lemma lookupDelta_upsert_frame {p p' : CollectionPhase} (h : p ≠ p')
    (m : FileMap) (n n' : String) (a d : Nat) :
    lookupDelta p' (upsert m p n a d) n' = lookupDelta p' m n' := by
  rcases hfind : findEntry m n with _ | e
  · by_cases hn : n' = n
    · subst hn
      have hnone : findEntry m n' = none := hfind
      simp only [upsert, hfind, lookupDelta, findEntry_append, hnone, Option.or]
      simp [findEntry, List.find?, setPhase_name, getDelta_setPhase_other h]
      cases p <;> cases p' <;> first | exact absurd rfl h | rfl
    · simp only [upsert, hfind, lookupDelta, findEntry_append]
      have hn2 : (n == n') = false := beq_eq_false_iff_ne.mpr fun hc => hn hc.symm
      have hsingle : findEntry [setPhase p a d ⟨n, ⟨0, 0⟩, ⟨0, 0⟩⟩] n' = none := by
        simp [findEntry, List.find?, setPhase_name, hn2]
      rw [hsingle]
      cases findEntry m n' <;> rfl
  · by_cases hn : n' = n
    · subst hn
      simp only [upsert, hfind, lookupDelta, findEntry_replaceEntry_self p a d hfind]
      simp [getDelta_setPhase_other h]
    · simp [upsert, hfind, lookupDelta, findEntry_replaceEntry_ne hn p a d]

lemma upsert_names (m : FileMap) (p : CollectionPhase) (n : String) (a d : Nat) :
    names (upsert m p n a d) =
      if (findEntry m n).isSome then names m else names m ++ [n] := by
  rcases hfind : findEntry m n with _ | e
  · simp [upsert, hfind, names, setPhase_name]
  · simp [upsert, hfind, replaceEntry_names]

lemma not_mem_names_of_findEntry_none {m : FileMap} {n : String}
    (h : findEntry m n = none) : n ∉ names m := by
  intro hmem
  rcases List.mem_map.mp hmem with ⟨e, hem, hname⟩
  have := (List.find?_eq_none.mp h) e hem
  simp [hname] at this

lemma upsert_nodup {m : FileMap} (hm : (names m).Nodup) (p : CollectionPhase)
    (n : String) (a d : Nat) : (names (upsert m p n a d)).Nodup := by
  rw [upsert_names]
  rcases hfind : findEntry m n with _ | e
  · simp only [hfind, Option.isSome_none, Bool.false_eq_true, if_false]
    refine hm.append (List.nodup_singleton n) ?_
    intro x hx hx2
    rw [List.mem_singleton] at hx2
    subst hx2
    exact not_mem_names_of_findEntry_none hfind hx
  · simp [hfind, hm]

lemma collect_changes_cb_nodup {m : FileMap} (hm : (names m).Nodup)
    (p : CollectionPhase) (q : List StatEvent) :
    (names (collect_changes_cb p q m)).Nodup := by
  rw [collect_changes_cb]
  by_cases hq : q.isEmpty
  · simpa [hq]
  · simp only [hq, Bool.false_eq_true, if_false]
    clear hq
    induction q generalizing m with
    | nil => simpa
    | cons ev rest ih => exact ih (upsert_nodup hm p ev.name ev.added ev.deleted)

lemma run_names_nodup (wt idx : List StatEvent) :
    (names (list_modified_into_status wt idx)).Nodup :=
  collect_changes_cb_nodup (collect_changes_cb_nodup (by simp [names]) _ wt) _ idx

/-!  Facts about the sort of print_modified. -/

lemma sortedFiles_perm (m : FileMap) : (sortedFiles m).Perm m :=
  List.perm_insertionSort fileLe m

lemma sortedFiles_sorted (m : FileMap) : List.Sorted fileLe (sortedFiles m) :=
  List.sorted_insertionSort fileLe m

lemma sortedFiles_names_nodup {m : FileMap} (hm : (names m).Nodup) :
    (names (sortedFiles m)).Nodup :=
  (((sortedFiles_perm m).map (fun f => f.name)).nodup_iff).mpr hm

lemma sortedFiles_pairwise_strict {m : FileMap} (hm : (names m).Nodup) :
    (sortedFiles m).Pairwise (fun a b => fileLe a b ∧ a.name ≠ b.name) := by
  have hsorted : (sortedFiles m).Pairwise fileLe := sortedFiles_sorted m
  have hnd : (sortedFiles m).Pairwise (fun a b => a.name ≠ b.name) :=
    List.pairwise_map.mp (sortedFiles_names_nodup hm)
  exact hsorted.and hnd

lemma sortedFiles_eq_of_perm {m m' : FileMap} (hp : m.Perm m')
    (hm : (names m).Nodup) : sortedFiles m = sortedFiles m' := by
  have hm' : (names m').Nodup := ((hp.map (fun f => f.name)).nodup_iff).mp hm
  have hperm : (sortedFiles m).Perm (sortedFiles m') :=
    ((sortedFiles_perm m).trans hp).trans (sortedFiles_perm m').symm
  haveI : IsAntisymm FileStat (fun a b => fileLe a b ∧ a.name ≠ b.name) :=
    ⟨fun _ _ h1 h2 => absurd (fileLe_names_eq h1.1 h2.1) h1.2⟩
  exact List.eq_of_perm_of_sorted hperm
    (sortedFiles_pairwise_strict hm) (sortedFiles_pairwise_strict hm')

/-!  Facts about the length of the rendered counts. -/

lemma uintReprAux_length_le :
    ∀ (fuel n k : Nat), n < 10 ^ k → (uintReprAux fuel n).length ≤ k
  | 0, _, _, _ => by simp [uintReprAux]
  | fuel + 1, n, k, hk => by
    by_cases hn : n = 0
    · simp [uintReprAux, hn]
    · cases k with
      | zero =>
        simp only [pow_zero, Nat.lt_one_iff] at hk
        exact absurd hk hn
      | succ k =>
        have hdiv : n / 10 < 10 ^ k :=
          (Nat.div_lt_iff_lt_mul (by norm_num)).mpr
            (by calc n < 10 ^ (k + 1) := hk
                _ = 10 ^ k * 10 := by ring)
        have ih := uintReprAux_length_le fuel (n / 10) k hdiv
        simp only [uintReprAux, hn, if_neg, not_false_iff, List.length_append,
          List.length_cons, List.length_nil]
        omega

lemma uintRepr_length_le {n k : Nat} (hk : 0 < k) (h : n < 10 ^ k) :
    (uintRepr n).length ≤ k := by
  by_cases hn : n = 0
  · subst hn
    simpa [uintRepr] using hk
  · simp only [uintRepr, hn, if_neg, not_false_iff]
    exact uintReprAux_length_le n n k h

lemma uintRepr_length_le_20 {n : Nat} (h : n < 2 ^ 64) : (uintRepr n).length ≤ 20 :=
  uintRepr_length_le (by norm_num) (lt_trans h (by norm_num))

lemma snprintf50_of_length_le {s : String} (h : s.length ≤ 49) : snprintf50 s = s := by
  have : s.data.length ≤ 49 := h
  simp [snprintf50, List.take_of_length_le this]

lemma counts_length_le {a d : Nat} (ha : a < 2 ^ 64) (hd : d < 2 ^ 64) :
    ("+" ++ uintRepr a ++ "/-" ++ uintRepr d).length + 1 ≤ 44 := by
  have h1 := uintRepr_length_le_20 ha
  have h2 := uintRepr_length_le_20 hd
  simp only [String.length_append]
  have hplus : ("+" : String).length = 1 := rfl
  have hslash : ("/-" : String).length = 2 := rfl
  omega

lemma counts_untruncated {a d : Nat} (ha : a < 2 ^ 64) (hd : d < 2 ^ 64) :
    snprintf50 ("+" ++ uintRepr a ++ "/-" ++ uintRepr d) =
      "+" ++ uintRepr a ++ "/-" ++ uintRepr d :=
  snprintf50_of_length_le (by have := counts_length_le ha hd; omega)

/-!  Facts about the printing loop with the store threaded through. -/

lemma renderRowsSt_eq : ∀ (i : Nat) (fs : List FileStat) (m : FileMap),
    renderRowsSt i fs m = (renderRows i fs, m)
  | _, [], _ => rfl
  | i, f :: rest, m => by
    simp [renderRowsSt, renderRows, renderRowsSt_eq (i + 1) rest m]

lemma renderSt_eq (m : FileMap) : renderSt m = (render m, m) := by
  by_cases hm : m.length < 1
  · simp [renderSt, render, hm]
  · simp [renderSt, render, hm, renderRowsSt_eq]

lemma render_eq_of_perm {m m' : FileMap} (hp : m.Perm m')
    (hm : (names m).Nodup) : render m = render m' := by
  have hlen : m.length = m'.length := hp.length_eq
  by_cases h0 : m.length < 1
  · simp [render, h0, hlen ▸ h0]
  · have h0' : ¬ m'.length < 1 := by omega
    simp [render, h0, h0', sortedFiles_eq_of_perm hp hm]

/-!  The claims. -/

/-- C1, counterexample to the claim as stated: when the staged snapshot
cannot be loaded the run prints nothing at all, while a run that
observed zero changes prints a single blank line, so the two outputs
differ. -/
theorem claim_C1_counterexample :
    (cmd_add__helper .STATUS (-1) [] []).1 ≠ (cmd_add__helper .STATUS 0 [] []).1 := by
  decide

/-- C1, amended: if the staged snapshot cannot be loaded, the whole
collection is abandoned immediately, no error is surfaced, the exit
status remains success, and the run produces no output at all, one blank
line short of what a run that observed zero changes prints. -/
theorem claim_C1 (rc : Int) (wt idx : List StatEvent) (h : rc < 0) :
    cmd_add__helper .STATUS rc wt idx = ("", 0) := by
  simp [cmd_add__helper, print_modified, h]

/-- C1, witness for the amended claim at a concrete failing load. -/
theorem claim_C1_witness :
    (-1 : Int) < 0 ∧ cmd_add__helper .STATUS (-1) [] [] = ("", 0) :=
  ⟨by decide, claim_C1 (-1) [] [] (by decide)⟩

/-- C2: reporting the same path twice within one phase leaves only the
second delta visible for that phase; the counts are overwritten, never
summed, and the result agrees with a single report of the second
delta. -/
theorem claim_C2 (m : FileMap) (p : CollectionPhase) (n : String)
    (a1 d1 a2 d2 : Nat) :
    lookupDelta p (upsert (upsert m p n a1 d1) p n a2 d2) n = ⟨a2, d2⟩ ∧
    lookupDelta p (upsert m p n a2 d2) n = ⟨a2, d2⟩ :=
  ⟨lookupDelta_upsert_self _ _ _ _ _, lookupDelta_upsert_self _ _ _ _ _⟩

/-- C3: a rendered cell is the concatenation of a plus sign, the added
count, a slash-minus and the deleted count exactly when one of the two
counts is nonzero, and otherwise the phase sentinel, nothing for the
worktree column and unchanged for the index column; the 64-bit bound of
uintmax_t keeps the buffer from truncating. -/
theorem claim_C3 (dlt : Delta) (ha : dlt.added < 2 ^ 64)
    (hd : dlt.deleted < 2 ^ 64) :
    worktreeCell dlt =
      (if dlt.added ≠ 0 ∨ dlt.deleted ≠ 0 then
        "+" ++ uintRepr dlt.added ++ "/-" ++ uintRepr dlt.deleted
      else "nothing") ∧
    indexCell dlt =
      (if dlt.added ≠ 0 ∨ dlt.deleted ≠ 0 then
        "+" ++ uintRepr dlt.added ++ "/-" ++ uintRepr dlt.deleted
      else "unchanged") := by
  by_cases h : dlt.added ≠ 0 ∨ dlt.deleted ≠ 0
  · have hb : (dlt.added != 0 || dlt.deleted != 0) = true := by
      rcases h with h | h <;> simp [h]
    rw [worktreeCell, indexCell, if_pos hb, if_pos hb]
    simp only [if_pos h]
    exact ⟨counts_untruncated ha hd, counts_untruncated ha hd⟩
  · have hb : (dlt.added != 0 || dlt.deleted != 0) = false := by
      push_neg at h
      simp [h.1, h.2]
    rw [worktreeCell, indexCell, hb]
    simp only [Bool.false_eq_true, if_false, if_neg h]
    exact ⟨by decide, by decide⟩

/-- C3, witness at a concrete delta with nonzero counts. -/
theorem claim_C3_witness :
    worktreeCell ⟨3, 1⟩ =
      (if (3 : Nat) ≠ 0 ∨ (1 : Nat) ≠ 0 then
        "+" ++ uintRepr 3 ++ "/-" ++ uintRepr 1
      else "nothing") ∧
    indexCell ⟨3, 1⟩ =
      (if (3 : Nat) ≠ 0 ∨ (1 : Nat) ≠ 0 then
        "+" ++ uintRepr 3 ++ "/-" ++ uintRepr 1
      else "unchanged") :=
  claim_C3 ⟨3, 1⟩ (by decide) (by decide)

/-- C4: whatever the two phases delivered and in whatever order, the
sorted snapshot that print_modified renders is strictly ascending by
path under the byte-wise lexicographic comparison of strcmp. -/
theorem claim_C4 (wt idx : List StatEvent) :
    ((sortedFiles (list_modified_into_status wt idx)).map (fun f => f.name)).Pairwise
      (fun a b => strLt a b = true) := by
  rw [List.pairwise_map]
  refine (sortedFiles_pairwise_strict (run_names_nodup wt idx)).imp ?_
  intro a b hab
  exact charListLt_of_le_of_ne _ _ hab.1 (fun hdata => hab.2 (String.ext hdata))

/-- C5: an upsert performed in one phase never changes the delta the
other phase observes, for the written path and for every other path
alike. -/
theorem claim_C5 (m : FileMap) (p p' : CollectionPhase) (n n' : String)
    (a d : Nat) (h : p ≠ p') :
    lookupDelta p' (upsert m p n a d) n' = lookupDelta p' m n' :=
  lookupDelta_upsert_frame h m n n' a d

/-- C5, witness: a worktree write of a fresh path leaves the index view
of that path at the zero delta it had before. -/
theorem claim_C5_witness :
    CollectionPhase.WORKTREE ≠ CollectionPhase.INDEX ∧
    lookupDelta .INDEX (upsert [] .WORKTREE "f" 3 1) "f" =
      lookupDelta .INDEX [] "f" :=
  ⟨by decide, claim_C5 [] .WORKTREE .INDEX "f" "f" 3 1 (by decide)⟩

/-- C6: a whole run leaves exactly one record per distinct path, and an
upsert finds the record for its path or creates it with both deltas
zero, then writes only the delta of the current phase; the key multiset
is unchanged when the record existed and grows by the one new key
otherwise. -/
theorem claim_C6 :
    (∀ wt idx : List StatEvent,
      (names (list_modified_into_status wt idx)).Nodup) ∧
    (∀ (m : FileMap) (p : CollectionPhase) (n : String) (a d : Nat),
      findEntry (upsert m p n a d) n =
        some (setPhase p a d ((findEntry m n).getD ⟨n, ⟨0, 0⟩, ⟨0, 0⟩⟩)) ∧
      names (upsert m p n a d) =
        (if (findEntry m n).isSome then names m else names m ++ [n])) :=
  ⟨fun wt idx => run_names_nodup wt idx,
   fun m p n a d => ⟨findEntry_upsert_self m p n a d, upsert_names m p n a d⟩⟩

/-- C7: an empty store renders as exactly one blank line, with no header
and no rows. -/
theorem claim_C7 (m : FileMap) (h : m.length = 0) : render m = "\n" := by
  rw [render, if_pos (by omega)]

/-- C7, witness at the empty store. -/
theorem claim_C7_witness : ([] : FileMap).length = 0 ∧ render ([] : FileMap) = "\n" :=
  ⟨rfl, claim_C7 [] rfl⟩

/-- C8: rendering reads the store and hands it back untouched, rendering
again from the store a render left behind gives byte-identical output,
and the output is determined by the contents of the store alone, not by
the order its records sit in. -/
theorem claim_C8 :
    (∀ m : FileMap, renderSt m = (render m, m)) ∧
    (∀ m : FileMap, (renderSt ((renderSt m).2)).1 = (renderSt m).1) ∧
    (∀ m m' : FileMap, m.Perm m' → (names m).Nodup → render m = render m') :=
  ⟨renderSt_eq,
   fun m => by rw [renderSt_eq, renderSt_eq],
   fun _ _ hp hm => render_eq_of_perm hp hm⟩

/-- C8, witness: two orderings of the same two records render to the
same bytes. -/
theorem claim_C8_witness :
    ([⟨"a", ⟨1, 0⟩, ⟨0, 0⟩⟩, ⟨"b", ⟨0, 2⟩, ⟨0, 0⟩⟩] : FileMap).Perm
        [⟨"b", ⟨0, 2⟩, ⟨0, 0⟩⟩, ⟨"a", ⟨1, 0⟩, ⟨0, 0⟩⟩] ∧
    (names ([⟨"a", ⟨1, 0⟩, ⟨0, 0⟩⟩, ⟨"b", ⟨0, 2⟩, ⟨0, 0⟩⟩] : FileMap)).Nodup ∧
    render ([⟨"a", ⟨1, 0⟩, ⟨0, 0⟩⟩, ⟨"b", ⟨0, 2⟩, ⟨0, 0⟩⟩] : FileMap) =
      render [⟨"b", ⟨0, 2⟩, ⟨0, 0⟩⟩, ⟨"a", ⟨1, 0⟩, ⟨0, 0⟩⟩] :=
  ⟨List.Perm.swap (⟨"b", ⟨0, 2⟩, ⟨0, 0⟩⟩ : FileStat) (⟨"a", ⟨1, 0⟩, ⟨0, 0⟩⟩ : FileStat) [],
   by decide,
   claim_C8.2.2 _ _
     (List.Perm.swap (⟨"b", ⟨0, 2⟩, ⟨0, 0⟩⟩ : FileStat) (⟨"a", ⟨1, 0⟩, ⟨0, 0⟩⟩ : FileStat) [])
     (by decide)⟩

/-- C9: a diff phase that delivers an empty queue leaves the store
exactly as it was: no record is created and no delta is modified. -/
theorem claim_C9 (p : CollectionPhase) (m : FileMap) :
    collect_changes_cb p [] m = m := rfl

/-- C10: for counts below two to the 64, the formatted cell together
with its terminating NUL needs at most 44 of the 50 bytes of the cell
buffer, so snprintf never truncates a rendered cell. -/
theorem claim_C10 (a d : Nat) (ha : a < 2 ^ 64) (hd : d < 2 ^ 64) :
    ("+" ++ uintRepr a ++ "/-" ++ uintRepr d).length + 1 ≤ 44 ∧
    ("+" ++ uintRepr a ++ "/-" ++ uintRepr d).length + 1 ≤ 50 ∧
    snprintf50 ("+" ++ uintRepr a ++ "/-" ++ uintRepr d) =
      "+" ++ uintRepr a ++ "/-" ++ uintRepr d :=
  ⟨counts_length_le ha hd,
   le_trans (counts_length_le ha hd) (by omega),
   counts_untruncated ha hd⟩

/-- C10, witness at the largest 64-bit counts. -/
theorem claim_C10_witness :
    ("+" ++ uintRepr (2 ^ 64 - 1) ++ "/-" ++ uintRepr (2 ^ 64 - 1)).length + 1 ≤ 44 ∧
    ("+" ++ uintRepr (2 ^ 64 - 1) ++ "/-" ++ uintRepr (2 ^ 64 - 1)).length + 1 ≤ 50 ∧
    snprintf50 ("+" ++ uintRepr (2 ^ 64 - 1) ++ "/-" ++ uintRepr (2 ^ 64 - 1)) =
      "+" ++ uintRepr (2 ^ 64 - 1) ++ "/-" ++ uintRepr (2 ^ 64 - 1) :=
  claim_C10 (2 ^ 64 - 1) (2 ^ 64 - 1) (by decide) (by decide)

end AddHelper
